import Mathlib

/-!
Shallow embedding of `context_summarization_filter.py` (class `Filter`), the
context-window budgeting and summarization pipeline of the repository.

Modelling conventions:
* Python `str` values are Lean `String`; the character-level helpers work on
  `List Char` (one entry per Unicode code point, matching Python indexing).
* The tiktoken encoding is abstracted as a token-count function
  `tc : String -> Nat`; every pipeline function that counts tokens takes it
  as an explicit argument.  Claims hold for an arbitrary such function.
* The stdlib pieces the source calls (`html.unescape`, `str.replace`,
  `re` searches for the five fixed patterns, `json.loads`, `json.dumps`)
  are embedded as executable functions over `List Char`, restricted where
  noted in their doc comments.
* The single external effect (the Ollama summarization call) is abstracted
  as a `SummarizerResult` argument of `inlet`: either the text the call
  returned or the fact that it raised.
* The one reachable unhandled Python exception (calling the regex search on
  a non-string, non-empty multimodal content inside
  `prepare_for_summarization`) is modelled by `Except Unit`.
-/

namespace Scout

/-- ASCII whitespace, the subset of the Python class `\s` and of
`str.strip` relevant here (space, tab, newline, carriage return, vertical
tab, form feed). -/
def isWs (c : Char) : Bool :=
  c = ' ' || c = '\t' || c = '\n' || c = '\x0d' || c = '\x0b' || c = '\x0c'

/-- Does `pat` occur as a contiguous substring of `hay`?
Models the hit/miss outcome of `re.search` on a fixed literal pattern. -/
def hasSub (pat : List Char) : List Char → Bool
  | [] => pat.isEmpty
  | c :: rest => pat.isPrefixOf (c :: rest) || hasSub pat rest

/-- Fuel-indexed worker for `countOccur`; the fuel is the input length,
which dominates the number of steps because every step consumes at least
one character. -/
def countOccurAux (pat : List Char) : Nat → List Char → Nat
  | 0, _ => 0
  | _ + 1, [] => 0
  | fuel + 1, c :: rest =>
    if pat.isPrefixOf (c :: rest) then
      countOccurAux pat fuel (rest.drop (pat.length - 1)) + 1
    else
      countOccurAux pat fuel rest

/-- Number of non-overlapping occurrences of `pat` in `hay`, scanning left
to right: models `len(re.findall(pat, hay))` for a fixed literal pattern
with no self-overlap.  `pat` is assumed non-empty. -/
def countOccur (pat hay : List Char) : Nat :=
  countOccurAux pat hay.length hay

/-- Index of the last occurrence of `pat` in `hay`, `-1` when absent:
models Python `hay.rfind(pat)` for non-empty `pat`. -/
def rfindSub (pat hay : List Char) : Int :=
  match ((List.range (hay.length + 1)).filter
      fun i => pat.isPrefixOf (hay.drop i)).getLast? with
  | some i => (i : Int)
  | none => -1

/-- Fuel-indexed worker for `replaceSub` (fuel: input length). -/
def replaceSubAux (pat rep : List Char) : Nat → List Char → List Char
  | 0, cs => cs
  | _ + 1, [] => []
  | fuel + 1, c :: rest =>
    if pat.isPrefixOf (c :: rest) then
      rep ++ replaceSubAux pat rep fuel (rest.drop (pat.length - 1))
    else
      c :: replaceSubAux pat rep fuel rest

/-- Left-to-right non-overlapping replacement of `pat` by `rep`:
models Python `str.replace` for non-empty `pat`. -/
def replaceSub (pat rep cs : List Char) : List Char :=
  replaceSubAux pat rep cs.length cs

/-- One hexadecimal digit. -/
def hexDigitVal (c : Char) : Option Nat :=
  if '0' ≤ c ∧ c ≤ '9' then some (c.toNat - '0'.toNat)
  else if 'a' ≤ c ∧ c ≤ 'f' then some (c.toNat - 'a'.toNat + 10)
  else if 'A' ≤ c ∧ c ≤ 'F' then some (c.toNat - 'A'.toNat + 10)
  else none

/-- Decimal digit test. -/
def isDigitCh (c : Char) : Bool := '0' ≤ c && c ≤ '9'

/-- Try to read one HTML character reference at the head of the list.
Modelled subset of the stdlib `html.unescape` entity table: the named
entities the upstream serializer produces (`&quot;` `&amp;` `&lt;` `&gt;`
`&#39;` style decimal and `&#x27;` style hexadecimal numeric references),
each with its terminating semicolon.  Returns the decoded character and
the remaining input. -/
def tryEntity (cs : List Char) : Option (Char × List Char) :=
  if ("&quot;".data).isPrefixOf cs then some ('"', cs.drop 6)
  else if ("&amp;".data).isPrefixOf cs then some ('&', cs.drop 5)
  else if ("&lt;".data).isPrefixOf cs then some ('<', cs.drop 4)
  else if ("&gt;".data).isPrefixOf cs then some ('>', cs.drop 4)
  else
    match cs with
    | '&' :: '#' :: 'x' :: rest =>
      let digits := rest.takeWhile fun c => (hexDigitVal c).isSome
      let tail := rest.dropWhile fun c => (hexDigitVal c).isSome
      if digits.isEmpty then none
      else
        match tail with
        | ';' :: after =>
          let n := digits.foldl (fun acc c => acc * 16 + ((hexDigitVal c).getD 0)) 0
          some (Char.ofNat n, after)
        | _ => none
    | '&' :: '#' :: rest =>
      let digits := rest.takeWhile isDigitCh
      let tail := rest.dropWhile isDigitCh
      if digits.isEmpty then none
      else
        match tail with
        | ';' :: after =>
          let n := digits.foldl (fun acc c => acc * 10 + (c.toNat - '0'.toNat)) 0
          some (Char.ofNat n, after)
        | _ => none
    | _ => none

/-- Fuel-indexed worker for `htmlUnescape`; the fuel is the input length,
which dominates the number of steps because every step consumes at least
one character. -/
def htmlUnescapeAux : Nat → List Char → List Char
  | 0, cs => cs
  | _ + 1, [] => []
  | fuel + 1, c :: rest =>
    if c = '&' then
      match tryEntity (c :: rest) with
      | some (e, after) => e :: htmlUnescapeAux fuel after
      | none => c :: htmlUnescapeAux fuel rest
    else c :: htmlUnescapeAux fuel rest

/-- Modelled `html.unescape` (restricted entity table, see `tryEntity`). -/
def htmlUnescape (cs : List Char) : List Char :=
  htmlUnescapeAux cs.length cs

/-- The decoding step of `Filter.extract_tool_result_info`:
`html.unescape` followed by `.replace(chr(92) ++ chr(34), chr(34))` and
`.replace(chr(92) ++ "n", newline)` (collapse one level of
backslash-escaping of quotes and newlines). -/
def decodeContent (cs : List Char) : List Char :=
  replaceSub ['\\', 'n'] ['\n'] (replaceSub ['\\', '"'] ['"'] (htmlUnescape cs))

/-- JSON values, as produced by the modelled `json.loads`.
Restriction noted once here: numbers are modelled only as integers
(`json.loads` also accepts floating-point literals; a fraction or exponent
makes the modelled parser fail, which only narrows the hypotheses of the
claims that are conditioned on a successful parse). -/
inductive Json where
  | null
  | bool (b : Bool)
  | int (n : Int)
  | str (s : String)
  | arr (elems : List Json)
  | obj (fields : List (String × Json))

/-- String-literal body scanner of the modelled `json.loads`: reads
characters up to the closing quote, handling the JSON escape sequences and
rejecting raw control characters, as the Python parser does.  Returns the
decoded characters and the remaining input. -/
def parseStringTok : List Char → Option (List Char × List Char)
  | [] => none
  | '"' :: rest => some ([], rest)
  | '\\' :: '"' :: rest => do
    let (s, r) ← parseStringTok rest
    some ('"' :: s, r)
  | '\\' :: '\\' :: rest => do
    let (s, r) ← parseStringTok rest
    some ('\\' :: s, r)
  | '\\' :: '/' :: rest => do
    let (s, r) ← parseStringTok rest
    some ('/' :: s, r)
  | '\\' :: 'b' :: rest => do
    let (s, r) ← parseStringTok rest
    some ('\x08' :: s, r)
  | '\\' :: 'f' :: rest => do
    let (s, r) ← parseStringTok rest
    some ('\x0c' :: s, r)
  | '\\' :: 'n' :: rest => do
    let (s, r) ← parseStringTok rest
    some ('\n' :: s, r)
  | '\\' :: 'r' :: rest => do
    let (s, r) ← parseStringTok rest
    some ('\x0d' :: s, r)
  | '\\' :: 't' :: rest => do
    let (s, r) ← parseStringTok rest
    some ('\t' :: s, r)
  | '\\' :: 'u' :: a :: b :: c :: d :: rest => do
    let ha ← hexDigitVal a
    let hb ← hexDigitVal b
    let hc ← hexDigitVal c
    let hd ← hexDigitVal d
    let (s, r) ← parseStringTok rest
    some (Char.ofNat (((ha * 16 + hb) * 16 + hc) * 16 + hd) :: s, r)
  | '\\' :: _ => none
  | c :: rest =>
    if c.toNat < 32 then none
    else do
      let (s, r) ← parseStringTok rest
      some (c :: s, r)

/-- Unsigned decimal literal of the modelled `json.loads`: digits with no
leading zero; a following fraction dot or exponent letter means the number
is not an integer and the modelled parser gives up (see `Json`). -/
def parseNatTok (cs : List Char) : Option (Nat × List Char) :=
  let digits := cs.takeWhile isDigitCh
  let rest := cs.dropWhile isDigitCh
  if digits.isEmpty then none
  else if 1 < digits.length && digits.head? = some '0' then none
  else
    match rest with
    | '.' :: _ => none
    | 'e' :: _ => none
    | 'E' :: _ => none
    | _ => some (digits.foldl (fun a c => a * 10 + (c.toNat - 48)) 0, rest)

/-- Signed integer literal. -/
def parseIntTok (cs : List Char) : Option (Int × List Char) :=
  match cs with
  | '-' :: rest => do
    let (n, r) ← parseNatTok rest
    some (-(n : Int), r)
  | _ => do
    let (n, r) ← parseNatTok cs
    some ((n : Int), r)

/-- Insertion with Python dict semantics (`json.loads` object building):
a repeated key keeps its first position but takes the last value. -/
def objInsert (fs : List (String × Json)) (k : String) (v : Json) :
    List (String × Json) :=
  match fs with
  | [] => [(k, v)]
  | (k0, v0) :: rest =>
    if k0 = k then (k0, v) :: rest else (k0, v0) :: objInsert rest k v

mutual

/-- Fuel-indexed value parser of the modelled `json.loads`. -/
def parseVal : Nat → List Char → Option (Json × List Char)
  | 0, _ => none
  | fuel + 1, cs =>
    let t := cs.dropWhile isWs
    match t with
    | 'n' :: rest =>
      if ['u', 'l', 'l'].isPrefixOf rest then some (.null, rest.drop 3) else none
    | 't' :: rest =>
      if ['r', 'u', 'e'].isPrefixOf rest then some (.bool true, rest.drop 3) else none
    | 'f' :: rest =>
      if ['a', 'l', 's', 'e'].isPrefixOf rest then some (.bool false, rest.drop 4)
      else none
    | '"' :: rest => do
      let (s, r) ← parseStringTok rest
      some (.str (String.mk s), r)
    | '[' :: rest => parseArrItems fuel rest
    | '{' :: rest => parseObjItems fuel rest
    | _ => do
      let (n, r) ← parseIntTok t
      some (.int n, r)

/-- Array body, entered right after the opening bracket. -/
def parseArrItems : Nat → List Char → Option (Json × List Char)
  | 0, _ => none
  | fuel + 1, cs =>
    let t := cs.dropWhile isWs
    match t with
    | ']' :: rest => some (.arr [], rest)
    | _ => do
      let (v, r) ← parseVal fuel t
      parseArrRest fuel [v] r

/-- Array continuation after a parsed element (`acc` holds the elements in
reverse).  A trailing comma is rejected, as `json.loads` does. -/
def parseArrRest : Nat → List Json → List Char → Option (Json × List Char)
  | 0, _, _ => none
  | fuel + 1, acc, cs =>
    let t := cs.dropWhile isWs
    match t with
    | ']' :: rest => some (.arr acc.reverse, rest)
    | ',' :: rest => do
      let (v, r) ← parseVal fuel rest
      parseArrRest fuel (v :: acc) r
    | _ => none

/-- Object body, entered right after the opening brace. -/
def parseObjItems : Nat → List Char → Option (Json × List Char)
  | 0, _ => none
  | fuel + 1, cs =>
    let t := cs.dropWhile isWs
    match t with
    | '\x7d' :: rest => some (.obj [], rest)
    | _ => parseObjRest fuel [] t

/-- Object members (`acc` holds the members parsed so far, in order). -/
def parseObjRest : Nat → List (String × Json) → List Char →
    Option (Json × List Char)
  | 0, _, _ => none
  | fuel + 1, acc, cs =>
    let t := cs.dropWhile isWs
    match t with
    | '"' :: rest => do
      let (k, r1) ← parseStringTok rest
      match r1.dropWhile isWs with
      | ':' :: r3 => do
        let (v, r4) ← parseVal fuel r3
        let acc2 := objInsert acc (String.mk k) v
        match r4.dropWhile isWs with
        | '\x7d' :: r6 => some (.obj acc2, r6)
        | ',' :: r6 => parseObjRest fuel acc2 r6
        | _ => none
      | _ => none
    | _ => none

end

/-- Modelled `json.loads`: parse one value and require that only
whitespace remains.  The fuel `2 * length + 2` dominates the number of
parser steps (each descent or continuation consumes at least one character
per two fuel units). -/
def jsonParse (cs : List Char) : Option Json :=
  match parseVal (2 * cs.length + 2) cs with
  | some (v, rest) => if (rest.dropWhile isWs).isEmpty then some v else none
  | none => none

/-- Hexadecimal digit character for `jsonDumps` control-character escapes. -/
def hexDigCh (n : Nat) : Char :=
  if n < 10 then Char.ofNat (48 + n) else Char.ofNat (87 + n)

/-- Per-character escaping of the modelled `json.dumps` with
`ensure_ascii=False`: quote, backslash and control characters are escaped,
everything else (non-ASCII included) is kept raw. -/
def escapeJsonChar (c : Char) : List Char :=
  if c = '"' then ['\\', '"']
  else if c = '\\' then ['\\', '\\']
  else if c = '\n' then ['\\', 'n']
  else if c = '\t' then ['\\', 't']
  else if c = '\x0d' then ['\\', 'r']
  else if c = '\x08' then ['\\', 'b']
  else if c = '\x0c' then ['\\', 'f']
  else if c.toNat < 32 then
    ['\\', 'u', '0', '0', hexDigCh (c.toNat / 16), hexDigCh (c.toNat % 16)]
  else [c]

/-- JSON string literal rendering. -/
def dumpStrTok (s : List Char) : List Char :=
  '"' :: (s.map escapeJsonChar).flatten ++ ['"']

mutual

/-- Modelled `json.dumps(..., ensure_ascii=False)` with the default
separators (item separator comma-space, key separator colon-space). -/
def dumpsVal : Json → List Char
  | .null => "null".data
  | .bool true => "true".data
  | .bool false => "false".data
  | .int n => (toString n).data
  | .str s => dumpStrTok s.data
  | .arr xs => '[' :: List.intercalate [',', ' '] (dumpsListVals xs) ++ [']']
  | .obj fs => '\x7b' :: List.intercalate [',', ' '] (dumpsFieldVals fs) ++ ['\x7d']

/-- Renders each array element. -/
def dumpsListVals : List Json → List (List Char)
  | [] => []
  | x :: xs => dumpsVal x :: dumpsListVals xs

/-- Renders each object member as `key: value`. -/
def dumpsFieldVals : List (String × Json) → List (List Char)
  | [] => []
  | (k, v) :: fs => (dumpStrTok k.data ++ ':' :: ' ' :: dumpsVal v) :: dumpsFieldVals fs

end

/-- Lookup used for the Python test `"results" in data` followed by
`data["results"]`: defined on objects (the string handed to `json.loads`
by `extract_tool_result_info` starts with a brace, so a successful parse
is always an object). -/
def jsonLookup (d : Json) (k : String) : Option Json :=
  match d with
  | .obj fs => (fs.find? fun kv => kv.1 = k).map fun kv => kv.2
  | _ => none

/-- Leftmost match attempt, at the current position, of the opening part of
the regex used on line 214 of the source (brace, whitespace, the quoted key
`results`, whitespace, colon, whitespace, opening bracket).  Returns the
input just after the opening bracket. -/
def resultsOpenAt (cs : List Char) : Option (List Char) :=
  match cs with
  | c :: r1 =>
    if c = '\x7b' then
      let r2 := r1.dropWhile isWs
      if ("\"results\"".data).isPrefixOf r2 then
        match (r2.drop 9).dropWhile isWs with
        | ':' :: r4 =>
          match r4.dropWhile isWs with
          | '[' :: r5 => some r5
          | _ => none
        | _ => none
      else none
    else none
  | [] => none

/-- Shortest (lazy) closing search: the earliest closing bracket that is
followed, after whitespace, by a closing brace.  Returns the captured group
(the characters before that closing bracket). -/
def resultsClose (acc : List Char) : List Char → Option (List Char)
  | [] => none
  | ']' :: rest =>
    match rest.dropWhile isWs with
    | '\x7d' :: _ => some acc.reverse
    | _ => resultsClose (']' :: acc) rest
  | c :: rest => resultsClose (c :: acc) rest

/-- Models the `re.search` on line 214: leftmost-start, then shortest-end
match of a results-object-shaped substring; yields capture group 1. -/
def resultsScan : List Char → Option (List Char)
  | [] => none
  | c :: rest =>
    match resultsOpenAt (c :: rest) with
    | some r5 =>
      match resultsClose [] r5 with
      | some cap => some cap
      | none => resultsScan rest
    | none => resultsScan rest

/-- Opening part of the raw-array regex on line 240 of the source (opening
bracket, whitespace, opening brace).  Returns the matched opening text and
the input after the brace. -/
def arrayOpenAt (cs : List Char) : Option (List Char × List Char) :=
  match cs with
  | c :: r1 =>
    if c = '[' then
      let ws := r1.takeWhile isWs
      match r1.dropWhile isWs with
      | c2 :: b => if c2 = '\x7b' then some ('[' :: ws ++ ['\x7b'], b) else none
      | [] => none
    else none
  | [] => none

/-- Shortest closing search for the raw-array regex: the earliest closing
brace followed, after whitespace, by a closing bracket.  Returns the body
together with the closing text (the whole tail of match group 0). -/
def arrayClose (acc : List Char) : List Char → Option (List Char)
  | [] => none
  | '\x7d' :: rest =>
    let ws2 := rest.takeWhile isWs
    match rest.dropWhile isWs with
    | ']' :: _ => some (acc.reverse ++ '\x7d' :: ws2 ++ [']'])
    | _ => arrayClose ('\x7d' :: acc) rest
  | c :: rest => arrayClose (c :: acc) rest

/-- Models the `re.search` on line 240: leftmost-start, shortest-end match
of a bracketed array of objects; yields the whole match (group 0). -/
def arrayScan : List Char → Option (List Char)
  | [] => none
  | c :: rest =>
    match arrayOpenAt (c :: rest) with
    | some (pre, b) =>
      match arrayClose [] b with
      | some post => some (pre ++ post)
      | none => arrayScan rest
    | none => arrayScan rest

/-- One entry of a multimodal content list: a dict with a `type` tag and a
`text` payload, or any non-dict entry. -/
inductive ContentPart where
  | part (ptype : String) (text : String)
  | nondict
deriving DecidableEq

/-- Message content: a plain string or a multimodal list. -/
inductive Content where
  | str (s : String)
  | parts (l : List ContentPart)
deriving DecidableEq

/-- One chat message. -/
structure Message where
  role : String
  content : Content
deriving DecidableEq

/-- The request body as far as the filter reads and writes it: the message
list it may replace and the chat model name (the remaining keys pass
through untouched and are not modelled). -/
structure Body where
  messages : List Message
  model : String
deriving DecidableEq

/-- The configuration valves the pipeline reads.  The source declares them
as pydantic integer fields with positive defaults; they are modelled as
naturals.  The valves that only affect logging or the HTTP endpoint
(`ollama_url`, `summarizer_model`, `debug_logging`, `dump_full_messages`,
`priority`) play no part in the claims and are omitted. -/
structure Valves where
  token_threshold : Nat
  messages_to_keep : Nat
  min_messages_to_keep : Nat
  tool_result_token_threshold : Nat

/-- Outcome of the one external effect, the Ollama summarization call:
either the text taken from the response (possibly empty, also covering a
missing `response` field), or the fact that the call raised. -/
inductive SummarizerResult where
  | ok (s : String)
  | err

/-- Return value of `extract_tool_result_info`. -/
structure ToolInfo where
  has_results : Bool
  result_count : Option Nat
  sample_row : Option (List (String × Json))
  has_error : Bool
  error_count : Nat

/-- `Filter.count_tokens`, with the tiktoken encoding abstracted as `tc`:
empty text counts zero, otherwise the token count of the encoding. -/
def count_tokens (tc : String → Nat) (text : String) : Nat :=
  if text = "" then 0 else tc text

/-- `Filter.count_message_tokens`: string content is counted directly;
in a multimodal list only dict items typed `text` contribute; any other
content counts zero. -/
def count_message_tokens (tc : String → Nat) (msg : Message) : Nat :=
  match msg.content with
  | .str s => count_tokens tc s
  | .parts l =>
    (l.map fun p =>
      match p with
      | .part t s => if t = "text" then count_tokens tc s else 0
      | .nondict => 0).sum

/-- `Filter.count_all_tokens`. -/
def count_all_tokens (tc : String → Nat) (messages : List Message) : Nat :=
  (messages.map (count_message_tokens tc)).sum

/-- `Filter.extract_base_system_prompt`: the first message, when its role
is `system`, is split off as the base prompt. -/
def extract_base_system_prompt (messages : List Message) :
    List Message × List Message :=
  match messages with
  | [] => ([], [])
  | m :: rest => if m.role = "system" then ([m], rest) else ([], m :: rest)

/-- Anchored signature 5 of `has_embedded_tool_result` (after leading
whitespace: a brace, a quote or apostrophe, the key text `results`). -/
def anchoredResultsKey (t : List Char) : Bool :=
  match t with
  | c :: q :: rest =>
    c = '\x7b' && (q = '"' || q = '\'') && ("results".data).isPrefixOf rest
  | _ => false

/-- Anchored signature 6 (bracket directly followed by brace). -/
def anchoredArrObj (t : List Char) : Bool :=
  match t with
  | c1 :: c2 :: _ => c1 = '[' && c2 = '\x7b'
  | _ => false

/-- Anchored signature 7 (a quote followed by an HTML-escaped quote). -/
def anchoredQuoteEnt (t : List Char) : Bool :=
  match t with
  | c :: rest => c = '"' && ("&quot;".data).isPrefixOf rest
  | [] => false

/-- `Filter.has_embedded_tool_result`: scans the first 1000 characters for
the seven fixed signatures (HTML-escaped `results` or `error` keys, their
double-escaped variants, or a leading JSON-ish opening). -/
def has_embedded_tool_result (content : String) : Bool :=
  if content.data.isEmpty then false
  else
    let c := content.data.take 1000
    let t := c.dropWhile isWs
    hasSub "&quot;results&quot;".data c ||
    hasSub "&quot;error&quot;".data c ||
    hasSub "\\&quot;results\\&quot;".data c ||
    hasSub "\\\"results\\\"".data c ||
    anchoredResultsKey t ||
    anchoredArrObj t ||
    anchoredQuoteEnt t

/-- The fixed failure marker phrase counted by `extract_tool_result_info`. -/
def errPhrase : List Char := "query execution failed".data

/-- The replaces applied on line 218 of the source to the rebuilt JSON
string (collapse one level of backslash-escaping). -/
def unescapeJsonStr (cs : List Char) : List Char :=
  replaceSub ['\\', 'n'] ['\n'] (replaceSub ['\\', '"'] ['"'] cs)

/-- The fixed text wrapped around capture group 1 on line 217. -/
def resPre : List Char := '\x7b' :: "\"results\": [".data

/-- Closing text of the rebuilt JSON string. -/
def resSuf : List Char := [']', '\x7d']

/-- Per-value truncation used when building the sample row: string values
longer than 40 characters are cut to 40 characters plus an ellipsis. -/
def truncVal : Json → Json
  | .str s => if 40 < s.length then .str (s.take 40 ++ "...") else .str s
  | v => v

/-- Sample row: the first element of the results array when it is a
key-value mapping, with its values truncated. -/
def sampleRow (results : List Json) : Option (List (String × Json)) :=
  match results with
  | .obj fields :: _ => some (fields.map fun kv => (kv.1, truncVal kv.2))
  | _ => none

/-- `Filter.extract_tool_result_info`. -/
def extract_tool_result_info (content : String) : ToolInfo :=
  let cs := content.data
  if cs.isEmpty then
    { has_results := false, result_count := none, sample_row := none,
      has_error := false, error_count := 0 }
  else
    let decoded := decodeContent cs
    let errCnt := countOccur errPhrase (decoded.map Char.toLower)
    let i0 : ToolInfo :=
      { has_results := false, result_count := none, sample_row := none,
        has_error := decide (0 < errCnt), error_count := errCnt / 2 }
    let i1 :=
      match resultsScan decoded with
      | some inner =>
        match jsonParse (unescapeJsonStr (resPre ++ inner ++ resSuf)) with
        | some d =>
          match jsonLookup d "results" with
          | some (.arr results) =>
            { i0 with has_results := true, result_count := some results.length,
                      sample_row := sampleRow results }
          | _ => i0
        | none => i0
      | none => i0
    let i2 :=
      if i1.has_results then i1
      else
        match arrayScan decoded with
        | some matched =>
          match jsonParse (unescapeJsonStr matched) with
          | some (.arr rows) =>
            if rows.isEmpty then i1
            else
              { i1 with has_results := true, result_count := some rows.length,
                        sample_row := sampleRow rows }
          | _ => i1
        | none => i1
    if i2.has_results then i2
    else if has_embedded_tool_result content then { i2 with has_results := true }
    else i2

/-- Digit grouping of a reversed digit list (comma every three digits). -/
def commaGroup : List Char → List Char
  | a :: b :: c :: d :: rest => a :: b :: c :: ',' :: commaGroup (d :: rest)
  | l => l

/-- Python format `:,` on a natural number: thousands separators. -/
def commaFmt (n : Nat) : List Char :=
  (commaGroup (toString n).data.reverse).reverse

/-- Python `str.strip`: remove whitespace from both ends. -/
def stripBoth (cs : List Char) : List Char :=
  ((cs.dropWhile isWs).reverse.dropWhile isWs).reverse

/-- Text of a content value; only applied where the source guarantees a
string (the compacted messages it builds itself). -/
def contentText : Content → String
  | .str s => s
  | .parts _ => ""

/-- `Filter.compact_assistant_with_tool_result`.  A non-empty multimodal
content never reaches this function (`prepare_for_summarization` fails
first on the regex search); that branch returns the message unchanged like
the falsy-content branch. -/
def compact_assistant_with_tool_result (msg : Message) : Message :=
  match msg.content with
  | .parts _ => msg
  | .str s =>
    if s = "" then msg
    else
      let info := extract_tool_result_info s
      let descParts : List (List Char) :=
        (if info.has_error && 0 < info.error_count then
          [(toString info.error_count).data ++ " failed queries".data]
        else []) ++
        (match info.result_count with
         | some n =>
           ((toString n).data ++ " rows".data) ::
           (match info.sample_row with
            | some sr =>
              if sr.isEmpty then []
              else
                let ss := dumpsVal (.obj sr)
                [if 120 < ss.length then ss.take 120 ++ "...\x7d".data else ss]
            | none => [])
         | none => if info.has_results then ["results returned".data] else [])
      let result_desc : List Char :=
        if descParts.isEmpty then
          "[Tool: ".data ++ commaFmt s.data.length ++ " chars]".data
        else
          "[Tool: ".data ++ List.intercalate " | ".data descParts ++ [']']
      let decoded := htmlUnescape s.data
      let lastJsonEnd : Int :=
        max (rfindSub ['\x7d', '"'] decoded)
          (max (rfindSub ['\x7d', '\''] decoded)
            (rfindSub ['\x7d', ']', '"'] decoded))
      if 0 < lastJsonEnd then
        let after := stripBoth (decoded.drop (lastJsonEnd.toNat + 2))
        let cleaned := after.dropWhile fun c => isWs c || c = '"' || c = '\''
        if 30 < cleaned.length then
          let cleaned2 :=
            if 500 < cleaned.length then cleaned.take 500 ++ "...".data else cleaned
          { role := "assistant",
            content := .str (String.mk (result_desc ++ '\n' :: '\n' :: cleaned2)) }
        else { role := "assistant", content := .str (String.mk result_desc) }
      else { role := "assistant", content := .str (String.mk result_desc) }

/-- Models `re.match` of the anchored pattern on line 406: a leading
`[Tool:` head, one or more non-bracket characters, a closing bracket;
yields capture group 1. -/
def toolMatchTok (cs : List Char) : Option (List Char) :=
  if ("[Tool:".data).isPrefixOf cs then
    let rest := cs.drop 6
    let body := rest.takeWhile fun c => c ≠ ']'
    if body.isEmpty then none
    else
      match rest.drop body.length with
      | ']' :: _ => some ("[Tool:".data ++ body ++ [']'])
      | _ => none
  else none

/-- `Filter.split_conversation`: keep the last `keep_count` messages. -/
def split_conversation (messages : List α) (keep_count : Nat) :
    List α × List α :=
  if messages.length ≤ keep_count then ([], messages)
  else
    (messages.take (messages.length - keep_count),
     messages.drop (messages.length - keep_count))

/-- Outcome of the halving loop in `Filter.find_dynamic_split`: the loop
returned a split, the loop condition failed (fall through to the last
resort), or the fuel ran out (the Python loop would still be running). -/
inductive DynRes (α : Type) where
  | found (old recent : List α)
  | exited
  | fuelOut
deriving DecidableEq

/-- Fuel-indexed model of the `while keep_count >= min_keep` loop of
`Filter.find_dynamic_split`. -/
def dynLoop : Nat → List α → Nat → Nat → DynRes α
  | 0, _, _, _ => .fuelOut
  | fuel + 1, messages, keep_count, min_keep =>
    if keep_count < min_keep then .exited
    else
      let s := split_conversation messages keep_count
      if s.1.isEmpty then dynLoop fuel messages (keep_count / 2) min_keep
      else .found s.1 s.2

/-- The keep counts the halving loop visits, with the same fuel bound. -/
def halvingKeeps : Nat → Nat → Nat → List Nat
  | 0, _, _ => []
  | fuel + 1, keep, min_keep =>
    if keep < min_keep then [] else keep :: halvingKeeps fuel (keep / 2) min_keep

/-- `Filter.find_dynamic_split`.  The loop is run with fuel
`initial_keep + 1`, which dominates the length of the halving sequence
whenever `1 <= min_keep` (claim about termination); when `min_keep = 0`
and the loop would run forever in Python, the fuel runs out and the model
falls through to the same last-resort branch. -/
def find_dynamic_split (messages : List α) (initial_keep : Nat)
    (min_keep : Nat) : List α × List α :=
  match dynLoop (initial_keep + 1) messages initial_keep min_keep with
  | .found old recent => (old, recent)
  | _ =>
    if min_keep < messages.length then
      (messages.take (messages.length - min_keep),
       messages.drop (messages.length - min_keep))
    else ([], messages)

/-- `Filter.prepare_for_summarization`: system messages are dropped, user
messages pass through, assistant messages with a large embedded tool
result are compacted (their digest line collected separately), any other
role is dropped.  The `.error` outcome models the unhandled `TypeError`
the source raises when the regex search receives a non-empty multimodal
content list. -/
def prepare_for_summarization (v : Valves) (tc : String → Nat) :
    List Message → Except Unit (List Message × List String)
  | [] => .ok ([], [])
  | msg :: rest =>
    if msg.role = "system" then prepare_for_summarization v tc rest
    else if msg.role = "assistant" then
      match msg.content with
      | .parts [] => do
        let (p, t) ← prepare_for_summarization v tc rest
        .ok (msg :: p, t)
      | .parts (_ :: _) => .error ()
      | .str s =>
        if has_embedded_tool_result s then
          if v.tool_result_token_threshold < count_tokens tc s then
            let compacted := compact_assistant_with_tool_result msg
            let ts0 :=
              match toolMatchTok (contentText compacted.content).data with
              | some g => [String.mk g]
              | none => []
            do
              let (p, t) ← prepare_for_summarization v tc rest
              .ok (compacted :: p, ts0 ++ t)
          else do
            let (p, t) ← prepare_for_summarization v tc rest
            .ok (msg :: p, t)
        else do
          let (p, t) ← prepare_for_summarization v tc rest
          .ok (msg :: p, t)
    else if msg.role = "user" then do
      let (p, t) ← prepare_for_summarization v tc rest
      .ok (msg :: p, t)
    else prepare_for_summarization v tc rest

/-- Python `str.upper` on ASCII roles. -/
def roleUpper (r : String) : String := String.map Char.toUpper r

/-- `Filter._build_summarization_prompt`: skip non-string or all-blank
contents, join `ROLE: content` lines with blank lines, wrap in the fixed
template; empty when nothing remains. -/
def build_summarization_prompt (messages : List Message) : String :=
  let convParts := messages.filterMap fun msg =>
    match msg.content with
    | .str s =>
      if (s.data.dropWhile isWs).isEmpty then none
      else some (roleUpper msg.role ++ ": " ++ s)
    | .parts _ => none
  if convParts.isEmpty then ""
  else
    "Summarize the following conversation concisely, preserving key facts, decisions, queries made, and context needed to continue the conversation:\n\n"
    ++ String.intercalate "\n\n" convParts
    ++ "\n\nProvide a clear, factual summary in 2-3 paragraphs."

/-- The verbatim tool-summaries block appended to both synthesized forms. -/
def toolBlock (ts : List String) : String :=
  "\n\n[Tool calls from earlier in conversation]\n" ++
  String.intercalate "\n" (ts.map fun t => "- " ++ t)

/-- Content of the truncation fallback note (summarization failed or
returned empty). -/
def fallbackContent (ts : List String) : String :=
  "[Note: Earlier conversation was truncated due to context limits. Some context may be missing.]"
  ++ (if ts.isEmpty then "" else toolBlock ts)

/-- The fallback system message. -/
def fallback_note (ts : List String) : Message :=
  { role := "system", content := .str (fallbackContent ts) }

/-- Content of the success-form summary message. -/
def summaryContent (summary : String) (ts : List String) : String :=
  "[Previous conversation summary]\n" ++ summary
  ++ (if ts.isEmpty then "" else toolBlock ts)
  ++ "\n[End of summary - recent messages follow]"

/-- The success-form synthesized system message. -/
def summary_message (summary : String) (ts : List String) : Message :=
  { role := "system", content := .str (summaryContent summary ts) }

/-- The one synthesized system message: `summarize_messages` returns empty
without calling out when the prompt is empty; otherwise the abstracted
call outcome decides between the summary-success form and the fallback
form (an exception and an empty text converge to the fallback). -/
def synth_message (promptEmpty : Bool) (sr : SummarizerResult)
    (ts : List String) : Message :=
  match (if promptEmpty then SummarizerResult.ok "" else sr) with
  | .err => fallback_note ts
  | .ok s => if s = "" then fallback_note ts else summary_message s ts

/-- `Filter.inlet`, with the status-event emission and debug logging (pure
observers) dropped: pass the body through when it has no messages, when
the total count is under the threshold, or when the dynamic split finds
nothing to summarize; otherwise rebuild the message list as base prompt,
synthesized system message, recent tail. -/
def inlet (v : Valves) (tc : String → Nat) (body : Body)
    (sr : SummarizerResult) : Except Unit Body :=
  if body.messages.isEmpty then .ok body
  else if count_all_tokens tc body.messages < v.token_threshold then .ok body
  else
    let es := extract_base_system_prompt body.messages
    let fd := find_dynamic_split es.2 v.messages_to_keep v.min_messages_to_keep
    if fd.1.isEmpty then .ok body
    else
      match prepare_for_summarization v tc fd.1 with
      | .error e => .error e
      | .ok (prep, ts) =>
        let prompt := build_summarization_prompt prep
        .ok { body with messages :=
                es.1 ++ synth_message (prompt == "") sr ts :: fd.2 }

/-- Token counter used for the concrete scenarios: any fixed function is
admissible, the claims hold for every `tc`. -/
def exTC : String → Nat := String.length

/-- Valves for the concrete scenarios: threshold 1 (every non-trivial
conversation triggers), keep 2, minimum keep 2, tool threshold 500. -/
def exValves : Valves :=
  { token_threshold := 1, messages_to_keep := 2, min_messages_to_keep := 2,
    tool_result_token_threshold := 500 }

/-- A user message. -/
def exUser (s : String) : Message := { role := "user", content := .str s }

/-- The 10-message all-user conversation of the concrete fallback
scenario. -/
def exBody10 : Body :=
  { messages :=
      [exUser "m0", exUser "m1", exUser "m2", exUser "m3", exUser "m4",
       exUser "m5", exUser "m6", exUser "m7", exUser "m8", exUser "m9"],
    model := "chat-model" }

/-- A conversation whose recent tail contains a non-first system message. -/
def exBodyTail : Body :=
  { messages :=
      [{ role := "system", content := .str "BASE" }, exUser "a", exUser "b",
       exUser "c", exUser "d", { role := "system", content := .str "LATE" }],
    model := "chat-model" }

/-- The late system message of `exBodyTail`. -/
def exLate : Message := { role := "system", content := .str "LATE" }

/-- The assistant message of the concrete results scenario. -/
def exMsgResults : Message :=
  { role := "assistant",
    content := .str "\x7b\"results\": [\x7b\"id\":1\x7d,\x7b\"id\":2\x7d,\x7b\"id\":3\x7d]\x7d" }

/-- An assistant message whose sample-row value itself contains an array
of objects, so that the compacted digest re-triggers the raw-array
detection. -/
def exMsgArrTrick : Message :=
  { role := "assistant",
    content := .str "\x7b\"results\": [\x7b\"a\": \"[\x7b\x7d]\"\x7d]\x7d" }

/-- A plain assistant message with no embedded result. -/
def exMsgHello : Message := { role := "assistant", content := .str "hello" }

/-- A one-message body under every positive threshold (empty content). -/
def exBodyTiny : Body := { messages := [exUser ""], model := "chat-model" }

/-- Step 1 of `inlet`: the base-prompt extraction, on the body. -/
def inletBase (body : Body) : List Message × List Message :=
  extract_base_system_prompt body.messages

/-- Step 2 of `inlet`: the dynamic split of the remaining conversation. -/
def inletSegments (v : Valves) (body : Body) : List Message × List Message :=
  find_dynamic_split (inletBase body).2 v.messages_to_keep v.min_messages_to_keep

/-- A conversation over the threshold whose old segment contains an
assistant message with non-empty multimodal content: its preparation step
hands the content list to the regex search and raises. -/
def exBodyCrash : Body :=
  { messages :=
      [exUser "a long opening user turn",
       { role := "assistant", content := .parts [ContentPart.nondict] },
       exUser "u2", exUser "u3"],
    model := "chat-model" }

/-- A second such conversation, for the failure-equivalence scenario. -/
def exBodyCrashB : Body :=
  { messages :=
      [exUser "another long opening user turn",
       { role := "assistant", content := .parts [ContentPart.nondict] },
       exUser "v2", exUser "v3"],
    model := "chat-model" }


lemma split_conversation_append (messages : List α) (k : Nat) :
    (split_conversation messages k).1 ++ (split_conversation messages k).2 =
      messages := by
  unfold split_conversation
  split
  · simp
  · simp [List.take_append_drop]

lemma split_conversation_of_le (messages : List α) (k : Nat)
    (h : messages.length ≤ k) : split_conversation messages k = ([], messages) := by
  unfold split_conversation
  simp [h]

lemma dynLoop_found_spec (fuel : Nat) :
    ∀ (messages : List α) (keep min_keep : Nat) (o r : List α),
      dynLoop fuel messages keep min_keep = .found o r →
      o ≠ [] ∧ o ++ r = messages := by
  induction fuel with
  | zero => intro messages keep min_keep o r h; simp [dynLoop] at h
  | succ f ih =>
    intro messages keep min_keep o r h
    unfold dynLoop at h
    split at h
    · simp at h
    · by_cases hemp : (split_conversation messages keep).1.isEmpty
      · simp only [hemp, if_true] at h
        exact ih messages (keep / 2) min_keep o r h
      · simp only [hemp, if_false] at h
        cases h with
        | refl =>
          refine ⟨?_, split_conversation_append messages keep⟩
          simpa using hemp

lemma dynLoop_not_found (fuel : Nat) :
    ∀ (messages : List α) (keep min_keep : Nat),
      (∀ k ∈ halvingKeeps fuel keep min_keep, messages.length ≤ k) →
      ∀ o r, dynLoop fuel messages keep min_keep ≠ .found o r := by
  induction fuel with
  | zero => intro messages keep min_keep _ o r h; simp [dynLoop] at h
  | succ f ih =>
    intro messages keep min_keep hall o r h
    unfold dynLoop at h
    split at h
    · simp at h
    · have hk : keep ∈ halvingKeeps (f + 1) keep min_keep := by
        unfold halvingKeeps
        split
        · omega
        · exact List.mem_cons_self _ _
      have hlen := hall keep hk
      have hsp := split_conversation_of_le messages keep hlen
      rw [hsp] at h
      simp only [List.isEmpty_nil, if_true] at h
      refine ih messages (keep / 2) min_keep ?_ o r h
      intro k hmem
      refine hall k ?_
      unfold halvingKeeps
      split
      · omega
      · exact List.mem_cons_of_mem _ hmem

/-- C3: for `1 <= min_keep` — the configured minimum retention floor is
positive — whenever the conversation is longer than `min_keep` the dynamic
split returns a non-empty old segment whose concatenation with the recent
segment is the input; and when every keep count visited by the halving
loop is at least the conversation length (no split yields a non-empty
old), the result is the last-resort pair: `(messages[:-min_keep],
messages[-min_keep:])` when the conversation is longer than `min_keep`,
else `([], messages)`. -/
theorem c3_find_dynamic_split_spec (messages : List Message)
    (initial_keep min_keep : Nat) (hmin : 1 ≤ min_keep) :
    (min_keep < messages.length →
      (find_dynamic_split messages initial_keep min_keep).1 ≠ [] ∧
      (find_dynamic_split messages initial_keep min_keep).1 ++
        (find_dynamic_split messages initial_keep min_keep).2 = messages) ∧
    ((∀ k ∈ halvingKeeps (initial_keep + 1) initial_keep min_keep,
        messages.length ≤ k) →
      find_dynamic_split messages initial_keep min_keep =
        if min_keep < messages.length then
          (messages.take (messages.length - min_keep),
           messages.drop (messages.length - min_keep))
        else ([], messages)) := by
  constructor
  · intro hlen
    unfold find_dynamic_split
    split
    · next o r heq =>
      have hspec := dynLoop_found_spec (initial_keep + 1) messages initial_keep
        min_keep o r heq
      simpa using hspec
    · next heq =>
      rw [if_pos hlen]
      refine ⟨?_, by simp [List.take_append_drop]⟩
      intro hnil
      have hnil2 : messages.take (messages.length - min_keep) = [] := hnil
      have hl := congrArg List.length hnil2
      simp only [List.length_take, List.length_nil] at hl
      omega
  · intro hall
    unfold find_dynamic_split
    split
    · next o r heq =>
      exact absurd heq
        (dynLoop_not_found (initial_keep + 1) messages initial_keep min_keep hall o r)
    · rfl

/-- Witness for C3 at a concrete input: a three-message conversation with
floor 2 splits into a singleton old segment and the last two messages. -/
theorem c3_witness :
    (2 < ([exUser "a", exUser "b", exUser "c"] : List Message).length →
      (find_dynamic_split [exUser "a", exUser "b", exUser "c"] 10 2).1 ≠ [] ∧
      (find_dynamic_split [exUser "a", exUser "b", exUser "c"] 10 2).1 ++
        (find_dynamic_split [exUser "a", exUser "b", exUser "c"] 10 2).2 =
        [exUser "a", exUser "b", exUser "c"]) ∧
    (2 < ([exUser "a", exUser "b", exUser "c"] : List Message).length) :=
  ⟨(c3_find_dynamic_split_spec [exUser "a", exUser "b", exUser "c"] 10 2
      (by decide)).1, by decide⟩

/-- C4: `split_conversation` is an exact partition: old and recent
concatenate back to the input; a conversation no longer than the keep
count is returned whole as recent with an empty old; otherwise recent is
exactly the last `keep_count` messages in original order. -/
theorem c4_split_conversation_spec (messages : List Message) (k : Nat) :
    (split_conversation messages k).1 ++ (split_conversation messages k).2 =
      messages ∧
    (messages.length ≤ k → split_conversation messages k = ([], messages)) ∧
    (k < messages.length →
      (split_conversation messages k).2 =
        messages.drop (messages.length - k) ∧
      (split_conversation messages k).2.length = k) := by
  refine ⟨split_conversation_append messages k, split_conversation_of_le messages k, ?_⟩
  intro hlt
  unfold split_conversation
  rw [if_neg (by omega)]
  constructor
  · rfl
  · simp [List.length_drop]
    omega

/-- Witness for C4 at a concrete input. -/
theorem c4_witness :
    (([exUser "a", exUser "b", exUser "c"] : List Message).length ≤ 5 →
      split_conversation [exUser "a", exUser "b", exUser "c"] 5 =
        ([], [exUser "a", exUser "b", exUser "c"])) ∧
    (([exUser "a", exUser "b", exUser "c"] : List Message).length ≤ 5) :=
  ⟨(c4_split_conversation_spec [exUser "a", exUser "b", exUser "c"] 5).2.1,
   by decide⟩

lemma dynLoop_no_fuelOut (min_keep : Nat) (hmin : 1 ≤ min_keep)
    (messages : List Message) :
    ∀ fuel keep, keep < fuel →
      dynLoop fuel messages keep min_keep ≠ DynRes.fuelOut := by
  intro fuel
  induction fuel with
  | zero => intro keep h; omega
  | succ f ih =>
    intro keep hk h
    unfold dynLoop at h
    split at h
    · exact absurd h (by simp)
    · next hge =>
      by_cases hemp : (split_conversation messages keep).1.isEmpty
      · simp only [hemp, if_true] at h
        have hkeep1 : 1 ≤ keep := by omega
        exact ih (keep / 2) (by omega) h
      · simp only [hemp, if_false] at h
        exact absurd h (by simp)

/-- C10: with a positive minimum keep the halving loop terminates within
`initial_keep + 1` iterations (the keep count strictly decreases to below
`min_keep`); with `min_keep = 0` the halving sticks at the fixed point 0
and the loop need not exit — on an empty conversation it runs forever,
modelled by `dynLoop` exhausting any amount of fuel. -/
theorem c10_dynloop_termination :
    (∀ (messages : List Message) (initial_keep min_keep : Nat),
      1 ≤ min_keep →
      dynLoop (initial_keep + 1) messages initial_keep min_keep ≠
        DynRes.fuelOut) ∧
    (∀ (fuel keep_count : Nat),
      dynLoop fuel ([] : List Message) keep_count 0 = DynRes.fuelOut) := by
  constructor
  · intro messages initial_keep min_keep hmin
    exact dynLoop_no_fuelOut min_keep hmin messages (initial_keep + 1)
      initial_keep (by omega)
  · intro fuel
    induction fuel with
    | zero => intro keep_count; rfl
    | succ f ih =>
      intro keep_count
      unfold dynLoop
      rw [if_neg (by omega)]
      rw [split_conversation_of_le ([] : List Message) keep_count (by simp)]
      simpa using ih (keep_count / 2)

/-- Witness for C10 at a concrete input: with floor 2 and initial keep 10
the loop on a singleton conversation does not exhaust its fuel. -/
theorem c10_witness :
    dynLoop 11 [exUser "a"] 10 2 ≠ DynRes.fuelOut :=
  c10_dynloop_termination.1 [exUser "a"] 10 2 (by decide)

/-- C1: a body whose total estimated token count is strictly below the
configured threshold passes through `inlet` unchanged, whatever the
summarizer would have answered. -/
theorem c1_inlet_below_threshold_identity (v : Valves) (tc : String → Nat)
    (body : Body) (sr : SummarizerResult)
    (h : count_all_tokens tc body.messages < v.token_threshold) :
    inlet v tc body sr = .ok body := by
  unfold inlet
  by_cases he : body.messages.isEmpty
  · simp [he]
  · simp [he, h]

/-- Witness for C1 at a concrete input. -/
theorem c1_witness :
    count_all_tokens exTC exBodyTiny.messages < exValves.token_threshold ∧
    inlet exValves exTC exBodyTiny SummarizerResult.err = .ok exBodyTiny :=
  ⟨by decide,
   c1_inlet_below_threshold_identity exValves exTC exBodyTiny
     SummarizerResult.err (by decide)⟩

lemma extract_base_append (messages : List Message) :
    (extract_base_system_prompt messages).1 ++
      (extract_base_system_prompt messages).2 = messages := by
  unfold extract_base_system_prompt
  match messages with
  | [] => rfl
  | m :: rest =>
    by_cases h : m.role = "system" <;> simp [h]

lemma find_dynamic_split_append (messages : List α) (i m : Nat) :
    (find_dynamic_split messages i m).1 ++ (find_dynamic_split messages i m).2 =
      messages := by
  unfold find_dynamic_split
  split
  · next o r heq =>
    exact (dynLoop_found_spec (i + 1) messages i m o r heq).2
  · split
    · simp [List.take_append_drop]
    · rfl

lemma find_dynamic_split_nil (i m : Nat) :
    find_dynamic_split ([] : List α) i m = ([], []) := by
  unfold find_dynamic_split
  split
  · next o r heq =>
    have hspec := dynLoop_found_spec (i + 1) [] i m o r heq
    have : o = [] := by
      cases o with
      | nil => rfl
      | cons a t => simp at hspec
    exact absurd this hspec.1
  · simp

lemma compact_role (msg : Message) (h : msg.role = "assistant") :
    (compact_assistant_with_tool_result msg).role = "assistant" := by
  unfold compact_assistant_with_tool_result
  match hc : msg.content with
  | .parts l => exact h
  | .str s =>
    by_cases hs : s = ""
    · simp only [hs, if_true]
      exact h
    · simp only [hs, if_false]
      split <;> split <;> rfl

lemma prepare_spec (v : Valves) (tc : String → Nat) :
    ∀ l : List Message,
      (∀ m ∈ l, m.role = "assistant" →
        (∃ s, m.content = Content.str s) ∨ m.content = Content.parts []) →
      ∃ p t, prepare_for_summarization v tc l = .ok (p, t) ∧
        ∀ m ∈ p, m.role = "assistant" ∨ m.role = "user" := by
  intro l
  induction l with
  | nil => intro _; exact ⟨[], [], rfl, by simp⟩
  | cons msg rest ih =>
    intro hstr
    obtain ⟨p, t, hrec, hroles⟩ := ih fun m hm => hstr m (List.mem_cons_of_mem _ hm)
    by_cases hsys : msg.role = "system"
    · refine ⟨p, t, ?_, hroles⟩
      simp [prepare_for_summarization, hsys, hrec]
    · by_cases hass : msg.role = "assistant"
      · rcases hstr msg (List.mem_cons_self _ _) hass with ⟨s, hs⟩ | hs
        · by_cases hemb : has_embedded_tool_result s
          · by_cases hbig : v.tool_result_token_threshold < count_tokens tc s
            · refine ⟨compact_assistant_with_tool_result msg :: p,
                (match toolMatchTok
                  (contentText (compact_assistant_with_tool_result msg).content).data with
                 | some g => [String.mk g]
                 | none => []) ++ t, ?_, ?_⟩
              · simp [prepare_for_summarization, hsys, hass, hs, hemb, hbig, hrec]
                try rfl
              · intro m hm
                rcases List.mem_cons.mp hm with hm | hm
                · exact Or.inl (hm ▸ compact_role msg hass)
                · exact hroles m hm
            · refine ⟨msg :: p, t, ?_, ?_⟩
              · simp [prepare_for_summarization, hsys, hass, hs, hemb, hbig, hrec]
                try rfl
              · intro m hm
                rcases List.mem_cons.mp hm with hm | hm
                · exact Or.inl (hm ▸ hass)
                · exact hroles m hm
          · refine ⟨msg :: p, t, ?_, ?_⟩
            · simp [prepare_for_summarization, hsys, hass, hs, hemb, hrec]
              try rfl
            · intro m hm
              rcases List.mem_cons.mp hm with hm | hm
              · exact Or.inl (hm ▸ hass)
              · exact hroles m hm
        · refine ⟨msg :: p, t, ?_, ?_⟩
          · simp [prepare_for_summarization, hsys, hass, hs, hrec]
            try rfl
          · intro m hm
            rcases List.mem_cons.mp hm with hm | hm
            · exact Or.inl (hm ▸ hass)
            · exact hroles m hm
      · by_cases huser : msg.role = "user"
        · refine ⟨msg :: p, t, ?_, ?_⟩
          · simp [prepare_for_summarization, hsys, hass, huser, hrec]
            try rfl
          · intro m hm
            rcases List.mem_cons.mp hm with hm | hm
            · exact Or.inr (hm ▸ huser)
            · exact hroles m hm
        · refine ⟨p, t, ?_, hroles⟩
          simp [prepare_for_summarization, hsys, hass, huser, hrec]

lemma inlet_triggered (v : Valves) (tc : String → Nat) (body : Body)
    (sr : SummarizerResult)
    (hthr : v.token_threshold ≤ count_all_tokens tc body.messages)
    (hold : (find_dynamic_split (extract_base_system_prompt body.messages).2
        v.messages_to_keep v.min_messages_to_keep).1 ≠ [])
    (prep : List Message) (ts : List String)
    (hprep : prepare_for_summarization v tc
        (find_dynamic_split (extract_base_system_prompt body.messages).2
          v.messages_to_keep v.min_messages_to_keep).1 = .ok (prep, ts)) :
    inlet v tc body sr = .ok { body with messages :=
      ((extract_base_system_prompt body.messages).1 ++
        synth_message (build_summarization_prompt prep == "") sr ts ::
          (find_dynamic_split (extract_base_system_prompt body.messages).2
            v.messages_to_keep v.min_messages_to_keep).2) } := by
  have hne : body.messages.isEmpty = false := by
    cases hmsg : body.messages with
    | nil =>
      rw [hmsg] at hold
      rw [show (extract_base_system_prompt ([] : List Message)).2 = [] from rfl] at hold
      rw [find_dynamic_split_nil] at hold
      exact absurd rfl hold
    | cons a l => rfl
  unfold inlet
  rw [hne]
  simp only [Bool.false_eq_true, if_false]
  rw [if_neg (by omega)]
  simp only [hprep]
  split
  · next hnil =>
    rw [List.isEmpty_iff] at hnil
    exact absurd hnil hold
  · rfl

lemma synth_role (pe : Bool) (sr : SummarizerResult) (ts : List String) :
    (synth_message pe sr ts).role = "system" := by
  unfold synth_message
  cases pe <;> cases sr <;>
    (try split) <;>
    (try split) <;>
    rfl

lemma drop_append_self (l1 l2 : List α) :
    (l1 ++ l2).drop ((l1 ++ l2).length - l2.length) = l2 := by
  have h : (l1 ++ l2).length - l2.length = l1.length := by
    simp [List.length_append]
  rw [h, List.drop_left]

lemma mem_old_mem_body (v : Valves) (body : Body) (m : Message)
    (hm : m ∈ (inletSegments v body).1) : m ∈ body.messages := by
  have h1 := find_dynamic_split_append (inletBase body).2 v.messages_to_keep
    v.min_messages_to_keep
  have h2 := extract_base_append body.messages
  have hm2 : m ∈ (inletBase body).2 := by
    rw [← h1]
    exact List.mem_append_left _ hm
  rw [← h2]
  exact List.mem_append_right _ hm2

/-- C2: whenever summarization triggers (total count at or above the
threshold, dynamic split non-empty, message contents strings so that the
preparation step does not raise), the output message list is exactly the
extracted base prompt (0 or 1 messages, the input head exactly when that
head has role system), one synthesized system message, and the recent tail
verbatim; hence the output is no longer than the input and the last
`len(recent)` messages of output and input agree. -/
theorem c2_inlet_reconstruction (v : Valves) (tc : String → Nat)
    (body : Body) (sr : SummarizerResult)
    (hthr : v.token_threshold ≤ count_all_tokens tc body.messages)
    (hstr : ∀ m ∈ body.messages, m.role = "assistant" →
      (∃ s, m.content = Content.str s) ∨ m.content = Content.parts [])
    (hold : (inletSegments v body).1 ≠ []) :
    ∃ prep ts,
      prepare_for_summarization v tc (inletSegments v body).1 =
        .ok (prep, ts) ∧
      inlet v tc body sr = .ok { body with messages :=
        ((inletBase body).1 ++
          synth_message (build_summarization_prompt prep == "") sr ts ::
            (inletSegments v body).2) } ∧
      (synth_message (build_summarization_prompt prep == "") sr ts).role =
        "system" ∧
      (∀ m rest2, body.messages = m :: rest2 →
        (inletBase body).1 = if m.role = "system" then [m] else []) ∧
      ((inletBase body).1 ++
        synth_message (build_summarization_prompt prep == "") sr ts ::
          (inletSegments v body).2).length ≤ body.messages.length ∧
      ((inletBase body).1 ++
        synth_message (build_summarization_prompt prep == "") sr ts ::
          (inletSegments v body).2).drop
        (((inletBase body).1 ++
          synth_message (build_summarization_prompt prep == "") sr ts ::
            (inletSegments v body).2).length -
          (inletSegments v body).2.length) = (inletSegments v body).2 ∧
      body.messages.drop
        (body.messages.length - (inletSegments v body).2.length) =
        (inletSegments v body).2 := by
  obtain ⟨prep, ts, hprep, _⟩ :=
    prepare_spec v tc (inletSegments v body).1
      (fun m hm => hstr m (mem_old_mem_body v body m hm))
  have hold2 : (find_dynamic_split (extract_base_system_prompt body.messages).2
      v.messages_to_keep v.min_messages_to_keep).1 ≠ [] := hold
  have hprep2 : prepare_for_summarization v tc
      (find_dynamic_split (extract_base_system_prompt body.messages).2
        v.messages_to_keep v.min_messages_to_keep).1 = .ok (prep, ts) := hprep
  have hlen1 := congrArg List.length (extract_base_append body.messages)
  have hlen2 := congrArg List.length
    (find_dynamic_split_append (inletBase body).2 v.messages_to_keep
      v.min_messages_to_keep)
  simp only [List.length_append] at hlen1 hlen2
  have holdlen : 1 ≤ (inletSegments v body).1.length :=
    List.length_pos.mpr hold
  refine ⟨prep, ts, hprep, ?_, synth_role _ sr ts, ?_, ?_, ?_, ?_⟩
  · exact inlet_triggered v tc body sr hthr hold2 prep ts hprep2
  · intro m rest2 hmsg
    unfold inletBase extract_base_system_prompt
    rw [hmsg]
    by_cases hrole : m.role = "system" <;> simp [hrole]
  · simp only [List.length_append, List.length_cons]
    have hlen1s : (inletBase body).1.length + (inletBase body).2.length =
        body.messages.length := hlen1
    have hlen2s : (inletSegments v body).1.length +
        (inletSegments v body).2.length = (inletBase body).2.length := hlen2
    omega
  · have hout : (inletBase body).1 ++
        synth_message (build_summarization_prompt prep == "") sr ts ::
          (inletSegments v body).2 =
        ((inletBase body).1 ++
          [synth_message (build_summarization_prompt prep == "") sr ts]) ++
          (inletSegments v body).2 := by
      simp
    rw [hout]
    exact drop_append_self _ _
  · have hb : ((inletBase body).1 ++ (inletSegments v body).1) ++
        (inletSegments v body).2 = body.messages := by
      rw [List.append_assoc]
      unfold inletSegments
      rw [find_dynamic_split_append]
      unfold inletBase
      exact extract_base_append body.messages
    rw [← hb]
    exact drop_append_self _ _

/-- Witness for C2 at a concrete input: the 10-message all-user body over
the threshold with keep 2. -/
theorem c2_witness :
    exValves.token_threshold ≤ count_all_tokens exTC exBody10.messages ∧
    (∀ m ∈ exBody10.messages, m.role = "assistant" →
      (∃ s, m.content = Content.str s) ∨ m.content = Content.parts []) ∧
    (inletSegments exValves exBody10).1 ≠ [] ∧
    ∃ prep ts,
      prepare_for_summarization exValves exTC
        (inletSegments exValves exBody10).1 = .ok (prep, ts) ∧
      inlet exValves exTC exBody10 (SummarizerResult.ok "SUM") =
        .ok { exBody10 with messages :=
          ((inletBase exBody10).1 ++
            synth_message (build_summarization_prompt prep == "")
              (SummarizerResult.ok "SUM") ts ::
              (inletSegments exValves exBody10).2) } := by
  have h1 : exValves.token_threshold ≤ count_all_tokens exTC exBody10.messages := by
    decide
  have h2 : ∀ m ∈ exBody10.messages, m.role = "assistant" →
      (∃ s, m.content = Content.str s) ∨ m.content = Content.parts [] := by
    intro m hm
    fin_cases hm <;> exact fun _ => Or.inl ⟨_, rfl⟩
  have h3 : (inletSegments exValves exBody10).1 ≠ [] := by decide
  obtain ⟨prep, ts, hprep, hout, -⟩ :=
    c2_inlet_reconstruction exValves exTC exBody10 (SummarizerResult.ok "SUM")
      h1 h2 h3
  exact ⟨h1, h2, h3, prep, ts, hprep, hout⟩

lemma synth_err_eq (pe : Bool) (ts : List String) :
    synth_message pe SummarizerResult.err ts =
      synth_message pe (SummarizerResult.ok "") ts := by
  cases pe <;> rfl

lemma synth_err_fallback (pe : Bool) (ts : List String) :
    synth_message pe SummarizerResult.err ts = fallback_note ts := by
  cases pe <;> rfl

/-- C5: a summarizer exception and an empty (or missing) summarizer text
produce identical outputs; when summarization triggers, that common output
is base prompt, one fallback system message whose content starts with the
fixed truncation note and carries the bulleted tool summaries exactly when
any were captured, then the recent tail; and the concrete 10-message
all-user scenario over the threshold with keep 2 and an empty summarizer
response yields a system message containing `truncated` with the last two
input messages preserved. -/
theorem c5_failure_empty_equivalence :
    (∀ (v : Valves) (tc : String → Nat) (body : Body),
      inlet v tc body SummarizerResult.err =
        inlet v tc body (SummarizerResult.ok "")) ∧
    (∀ (v : Valves) (tc : String → Nat) (body : Body),
      v.token_threshold ≤ count_all_tokens tc body.messages →
      (inletSegments v body).1 ≠ [] →
      ∀ prep ts,
        prepare_for_summarization v tc (inletSegments v body).1 =
          .ok (prep, ts) →
        inlet v tc body SummarizerResult.err = .ok { body with messages :=
          ((inletBase body).1 ++ fallback_note ts ::
            (inletSegments v body).2) } ∧
        fallbackContent ts =
          "[Note: Earlier conversation was truncated due to context limits. Some context may be missing.]"
            ++ (if ts.isEmpty then "" else toolBlock ts) ∧
        ("[Note: Earlier conversation was truncated due to context limits. Some context may be missing.]".data).isPrefixOf
          (fallbackContent ts).data = true) ∧
    (inlet exValves exTC exBody10 (SummarizerResult.ok "") =
      .ok { exBody10 with messages :=
        (fallback_note [] :: [exUser "m8", exUser "m9"]) } ∧
     (fallback_note []).role = "system" ∧
     hasSub "truncated".data (contentText (fallback_note []).content).data =
       true ∧
     exBody10.messages.drop 8 = [exUser "m8", exUser "m9"]) := by
  refine ⟨?_, ?_, rfl, rfl, rfl, rfl⟩
  · intro v tc body
    unfold inlet
    split
    · rfl
    · split
      · rfl
      · dsimp only
        split
        · rfl
        · cases hp : prepare_for_summarization v tc
            (find_dynamic_split (extract_base_system_prompt body.messages).2
              v.messages_to_keep v.min_messages_to_keep).1 with
          | error e => rfl
          | ok pt =>
            obtain ⟨prep, ts⟩ := pt
            dsimp only
            rw [synth_err_eq]
  · intro v tc body hthr hold prep ts hprep
    have hout := inlet_triggered v tc body SummarizerResult.err hthr hold prep
      ts hprep
    rw [synth_err_fallback] at hout
    refine ⟨hout, rfl, ?_⟩
    rw [List.isPrefixOf_iff_prefix]
    unfold fallbackContent
    rw [String.data_append]
    exact List.prefix_append _ _

/-- Witness for C5 at a concrete input, discharging the trigger
hypotheses for the 10-message body. -/
theorem c5_witness :
    inlet exValves exTC exBody10 SummarizerResult.err =
      inlet exValves exTC exBody10 (SummarizerResult.ok "") ∧
    inlet exValves exTC exBody10 SummarizerResult.err =
      .ok { exBody10 with messages :=
        ((inletBase exBody10).1 ++ fallback_note [] ::
          (inletSegments exValves exBody10).2) } := by
  refine ⟨c5_failure_empty_equivalence.1 exValves exTC exBody10, ?_⟩
  have h := c5_failure_empty_equivalence.2.1 exValves exTC exBody10
    (by decide) (by decide)
    [exUser "m0", exUser "m1", exUser "m2", exUser "m3", exUser "m4",
     exUser "m5", exUser "m6", exUser "m7"] [] (by rfl)
  exact h.1

/-- C6 counterexample: the claim says a non-first system message never
appears in the reconstructed output; in this conversation the non-first
system message `exLate` sits in the preserved recent tail and is the last
message of the output (it is neither the base prompt, which is the `BASE`
head, nor the synthesized summary message). -/
theorem c6_counterexample :
    inlet exValves exTC exBodyTail (SummarizerResult.ok "SUM") =
      .ok { exBodyTail with messages :=
        [{ role := "system", content := Content.str "BASE" },
         summary_message "SUM" [], exUser "d", exLate] } ∧
    exLate.role = "system" ∧
    exBodyTail.messages.head? ≠ some exLate ∧
    exLate ≠ summary_message "SUM" [] ∧
    exLate ≠ { role := "system", content := Content.str "BASE" } := by
  exact ⟨rfl, rfl, by decide, by decide, by decide⟩

/-- C6 amended: every non-first system message is dropped from the
summarization input (no prepared message has role system), and the output
is exactly base prompt, synthesized message, recent tail — so a system
message of the output is the base prompt, the synthesized message, or a
system message lying in the preserved recent tail.  (The original claim
additionally asserted absence from the recent tail, which the
counterexample refutes.) -/
theorem c6_amended_system_dropping (v : Valves) (tc : String → Nat)
    (body : Body) (sr : SummarizerResult)
    (hthr : v.token_threshold ≤ count_all_tokens tc body.messages)
    (hstr : ∀ m ∈ body.messages, m.role = "assistant" →
      (∃ s, m.content = Content.str s) ∨ m.content = Content.parts [])
    (hold : (inletSegments v body).1 ≠ []) :
    ∃ prep ts,
      prepare_for_summarization v tc (inletSegments v body).1 =
        .ok (prep, ts) ∧
      (∀ m ∈ prep, m.role ≠ "system") ∧
      inlet v tc body sr = .ok { body with messages :=
        ((inletBase body).1 ++
          synth_message (build_summarization_prompt prep == "") sr ts ::
            (inletSegments v body).2) } ∧
      (∀ m, m ∈ ((inletBase body).1 ++
          synth_message (build_summarization_prompt prep == "") sr ts ::
            (inletSegments v body).2) → m.role = "system" →
        m ∈ (inletBase body).1 ∨
        m = synth_message (build_summarization_prompt prep == "") sr ts ∨
        m ∈ (inletSegments v body).2) := by
  obtain ⟨prep, ts, hprep, hroles⟩ :=
    prepare_spec v tc (inletSegments v body).1
      (fun m hm => hstr m (mem_old_mem_body v body m hm))
  refine ⟨prep, ts, hprep, ?_, ?_, ?_⟩
  · intro m hm
    rcases hroles m hm with h | h <;> simp [h]
  · exact inlet_triggered v tc body sr hthr hold prep ts hprep
  · intro m hm _
    rcases List.mem_append.mp hm with h | h
    · exact Or.inl h
    · rcases List.mem_cons.mp h with h | h
      · exact Or.inr (Or.inl h)
      · exact Or.inr (Or.inr h)

/-- Witness for C6 at a concrete input: the conversation with the late
system message in its tail. -/
theorem c6_witness :
    exValves.token_threshold ≤ count_all_tokens exTC exBodyTail.messages ∧
    (inletSegments exValves exBodyTail).1 ≠ [] ∧
    ∃ prep ts,
      prepare_for_summarization exValves exTC
        (inletSegments exValves exBodyTail).1 = .ok (prep, ts) ∧
      (∀ m ∈ prep, m.role ≠ "system") := by
  have h2 : ∀ m ∈ exBodyTail.messages, m.role = "assistant" →
      (∃ s, m.content = Content.str s) ∨ m.content = Content.parts [] := by
    intro m hm
    fin_cases hm <;> exact fun _ => Or.inl ⟨_, rfl⟩
  obtain ⟨prep, ts, hprep, hnosys, -⟩ :=
    c6_amended_system_dropping exValves exTC exBodyTail
      (SummarizerResult.ok "SUM") (by decide) h2 (by decide)
  exact ⟨by decide, by decide, prep, ts, hprep, hnosys⟩

set_option maxHeartbeats 1600000 in
/-- C8: `extract_tool_result_info` reports an error exactly when the
failure phrase occurs at least once, case-insensitively, in the decoded
content, and its error count is the number of occurrences halved by
integer division — so one occurrence yields `has_error` with a zero
count. -/
theorem c8_error_counting_spec (content : String) :
    ((extract_tool_result_info content).has_error = true ↔
      1 ≤ countOccur errPhrase
        ((decodeContent content.data).map Char.toLower)) ∧
    (extract_tool_result_info content).error_count =
      countOccur errPhrase ((decodeContent content.data).map Char.toLower) / 2 ∧
    (countOccur errPhrase ((decodeContent content.data).map Char.toLower) = 1 →
      (extract_tool_result_info content).has_error = true ∧
      (extract_tool_result_info content).error_count = 0) := by
  have hmain : (extract_tool_result_info content).has_error =
      decide (0 < countOccur errPhrase
        ((decodeContent content.data).map Char.toLower)) ∧
      (extract_tool_result_info content).error_count =
        countOccur errPhrase
          ((decodeContent content.data).map Char.toLower) / 2 := by
    by_cases hc : content.data.isEmpty
    · obtain ⟨cs⟩ := content
      have hnil : cs = [] := by simpa using hc
      subst hnil
      exact ⟨rfl, rfl⟩
    · unfold extract_tool_result_info
      dsimp only
      rw [if_neg (by simpa using hc)]
      constructor
      · repeat' split
        all_goals rfl
      · repeat' split
        all_goals rfl
  obtain ⟨he, hec⟩ := hmain
  refine ⟨?_, hec, ?_⟩
  · rw [he, decide_eq_true_eq]
    exact Iff.rfl
  · intro h1
    refine ⟨?_, ?_⟩
    · rw [he, h1]
      rfl
    · rw [hec, h1]

/-- Witness for C8 at a concrete input: a single, capitalized occurrence
of the failure phrase. -/
theorem c8_witness :
    countOccur errPhrase
      ((decodeContent "Query execution failed".data).map Char.toLower) = 1 ∧
    (extract_tool_result_info "Query execution failed").has_error = true ∧
    (extract_tool_result_info "Query execution failed").error_count = 0 := by
  have h := (c8_error_counting_spec "Query execution failed").2.2 (by rfl)
  exact ⟨by rfl, h.1, h.2⟩

/-- C7: whenever the decoded content contains a results-object-shaped
substring whose rebuilt text parses as JSON with a list under the
`results` key, the extractor reports results, counts the list, and takes
the first element as the sample row when it is a mapping, truncating every
string value longer than 40 characters to 40 characters plus an ellipsis
and passing every other value through; concretely, the three-row id
payload yields a count of 3 and its compacted digest contains `3 rows`
and the JSON rendering of the first row. -/
theorem c7_extract_results_spec (content : String) (inner : List Char)
    (d : Json) (results : List Json)
    (h1 : resultsScan (decodeContent content.data) = some inner)
    (h2 : jsonParse (unescapeJsonStr (resPre ++ inner ++ resSuf)) = some d)
    (h3 : jsonLookup d "results" = some (Json.arr results)) :
    (extract_tool_result_info content).has_results = true ∧
    (extract_tool_result_info content).result_count = some results.length ∧
    (extract_tool_result_info content).sample_row = sampleRow results ∧
    (∀ fields rest2, results = Json.obj fields :: rest2 →
      sampleRow results =
        some (fields.map fun kv => (kv.1, truncVal kv.2))) ∧
    (∀ s2 : String, truncVal (Json.str s2) =
      if 40 < s2.length then Json.str (s2.take 40 ++ "...")
      else Json.str s2) ∧
    (∀ v2 : Json, (∀ s2 : String, v2 ≠ Json.str s2) → truncVal v2 = v2) ∧
    ((extract_tool_result_info (contentText exMsgResults.content)).has_results =
      true ∧
     (extract_tool_result_info
        (contentText exMsgResults.content)).result_count = some 3 ∧
     hasSub "3 rows".data
       (contentText
         (compact_assistant_with_tool_result exMsgResults).content).data =
       true ∧
     hasSub "\x7b\"id\": 1\x7d".data
       (contentText
         (compact_assistant_with_tool_result exMsgResults).content).data =
       true) := by
  have hne : ¬content.data.isEmpty = true := by
    intro hc
    obtain ⟨cs⟩ := content
    have hnil : cs = [] := by simpa using hc
    subst hnil
    rw [show resultsScan (decodeContent (String.data ⟨[]⟩)) = none from rfl] at h1
    cases h1
  have hfields : (extract_tool_result_info content).has_results = true ∧
      (extract_tool_result_info content).result_count = some results.length ∧
      (extract_tool_result_info content).sample_row = sampleRow results := by
    unfold extract_tool_result_info
    dsimp only
    rw [if_neg hne, h1]
    dsimp only
    rw [h2]
    dsimp only
    rw [h3]
    exact ⟨rfl, rfl, rfl⟩
  refine ⟨hfields.1, hfields.2.1, hfields.2.2, ?_, ?_, ?_, rfl, rfl, rfl, rfl⟩
  · intro fields rest2 hres
    rw [hres]
    rfl
  · intro s2
    rfl
  · intro v2 hv
    cases v2 with
    | str s2 => exact absurd rfl (hv s2)
    | null => rfl
    | bool b => rfl
    | int n => rfl
    | arr xs => rfl
    | obj fs => rfl

/-- Witness for C7 at a concrete input: the three-row id payload. -/
theorem c7_witness :
    resultsScan (decodeContent (contentText exMsgResults.content).data) =
      some "\x7b\"id\":1\x7d,\x7b\"id\":2\x7d,\x7b\"id\":3\x7d".data ∧
    (extract_tool_result_info
      (contentText exMsgResults.content)).has_results = true ∧
    (extract_tool_result_info
      (contentText exMsgResults.content)).result_count = some 3 ∧
    (extract_tool_result_info
      (contentText exMsgResults.content)).sample_row =
      some [("id", Json.int 1)] := by
  have h := c7_extract_results_spec (contentText exMsgResults.content)
    ("\x7b\"id\":1\x7d,\x7b\"id\":2\x7d,\x7b\"id\":3\x7d".data)
    (Json.obj [("results",
      Json.arr [Json.obj [("id", Json.int 1)], Json.obj [("id", Json.int 2)],
        Json.obj [("id", Json.int 3)]])])
    [Json.obj [("id", Json.int 1)], Json.obj [("id", Json.int 2)],
     Json.obj [("id", Json.int 3)]]
    rfl rfl rfl
  refine ⟨rfl, h.1, ?_, ?_⟩
  · rw [h.2.1]
    rfl
  · rw [h.2.2.1]
    rfl

lemma isPrefixOf_mem {pat l : List Char} (h : pat.isPrefixOf l = true) :
    ∀ a ∈ pat, a ∈ l := by
  induction pat generalizing l with
  | nil => simp
  | cons p ps ih =>
    cases l with
    | nil => simp [List.isPrefixOf] at h
    | cons b bs =>
      simp only [List.isPrefixOf, Bool.and_eq_true, beq_iff_eq] at h
      obtain ⟨hb, hrest⟩ := h
      intro a ha
      rcases List.mem_cons.mp ha with ha | ha
      · subst ha
        rw [hb]
        exact List.mem_cons_self _ _
      · exact List.mem_cons_of_mem _ (ih hrest a ha)

lemma hasSub_absent (pat hay : List Char) (c0 : Char) (hc : c0 ∈ pat)
    (hn : c0 ∉ hay) : hasSub pat hay = false := by
  induction hay with
  | nil =>
    cases pat with
    | nil => simp at hc
    | cons p ps => rfl
  | cons b bs ih =>
    have h1 : pat.isPrefixOf (b :: bs) = false := by
      cases hp : pat.isPrefixOf (b :: bs) with
      | false => rfl
      | true => exact absurd (isPrefixOf_mem hp c0 hc) hn
    have h2 := ih (fun hm => hn (List.mem_cons_of_mem _ hm))
    simp [hasSub, h1, h2]

lemma htmlUnescapeAux_no_amp :
    ∀ (fuel : Nat) (cs : List Char), '&' ∉ cs →
      htmlUnescapeAux fuel cs = cs := by
  intro fuel
  induction fuel with
  | zero => intro cs _; rfl
  | succ f ih =>
    intro cs h
    cases cs with
    | nil => rfl
    | cons c rest =>
      have hc : ¬c = '&' := fun he => h (he ▸ List.mem_cons_self _ _)
      simp only [htmlUnescapeAux, hc, if_false]
      rw [ih rest (fun hm => h (List.mem_cons_of_mem _ hm))]

lemma htmlUnescape_no_amp {cs : List Char} (h : '&' ∉ cs) :
    htmlUnescape cs = cs :=
  htmlUnescapeAux_no_amp cs.length cs h

lemma replaceSubAux_no_first (p0 : Char) (ps rep : List Char) :
    ∀ (fuel : Nat) (cs : List Char), p0 ∉ cs →
      replaceSubAux (p0 :: ps) rep fuel cs = cs := by
  intro fuel
  induction fuel with
  | zero => intro cs _; rfl
  | succ f ih =>
    intro cs h
    cases cs with
    | nil => rfl
    | cons c rest =>
      have hc : (p0 :: ps).isPrefixOf (c :: rest) = false := by
        have hne : ¬(p0 == c) = true := by
          simp only [beq_iff_eq]
          exact fun he => h (he ▸ List.mem_cons_self _ _)
        simp [List.isPrefixOf, hne]
      simp only [replaceSubAux, hc, Bool.false_eq_true, if_false]
      rw [ih rest (fun hm => h (List.mem_cons_of_mem _ hm))]

lemma replaceSub_no_first {p0 : Char} {ps rep cs : List Char}
    (h : p0 ∉ cs) : replaceSub (p0 :: ps) rep cs = cs :=
  replaceSubAux_no_first p0 ps rep cs.length cs h

lemma decode_no_markers {cs : List Char} (hamp : '&' ∉ cs)
    (hbs : '\\' ∉ cs) : decodeContent cs = cs := by
  unfold decodeContent
  rw [htmlUnescape_no_amp hamp, replaceSub_no_first hbs,
    replaceSub_no_first hbs]

lemma resultsOpenAt_none {cs : List Char} (h : '\x7b' ∉ cs) :
    resultsOpenAt cs = none := by
  cases cs with
  | nil => rfl
  | cons c r1 =>
    have hc : ¬c = '\x7b' := fun he => h (he ▸ List.mem_cons_self _ _)
    simp [resultsOpenAt, hc]

lemma resultsScan_none {cs : List Char} (h : '\x7b' ∉ cs) :
    resultsScan cs = none := by
  induction cs with
  | nil => rfl
  | cons c rest ih =>
    have ho := resultsOpenAt_none h
    have hr := ih (fun hm => h (List.mem_cons_of_mem _ hm))
    simp [resultsScan, ho, hr]

lemma arrayOpenAt_none {cs : List Char} (h : '\x7b' ∉ cs) :
    arrayOpenAt cs = none := by
  cases cs with
  | nil => rfl
  | cons c r1 =>
    by_cases hc : c = '['
    · simp only [arrayOpenAt, hc, if_true]
      cases hdw : r1.dropWhile isWs with
      | nil => rfl
      | cons c2 b =>
        have hc2m : c2 ∈ r1 := by
          have : c2 ∈ r1.dropWhile isWs := by
            rw [hdw]
            exact List.mem_cons_self _ _
          exact (List.dropWhile_sublist _).subset this
        have hc2 : ¬c2 = '\x7b' :=
          fun he => h (he ▸ List.mem_cons_of_mem _ hc2m)
        simp [hc2]
    · simp [arrayOpenAt, hc]

lemma arrayScan_none {cs : List Char} (h : '\x7b' ∉ cs) :
    arrayScan cs = none := by
  induction cs with
  | nil => rfl
  | cons c rest ih =>
    have ho := arrayOpenAt_none h
    have hr := ih (fun hm => h (List.mem_cons_of_mem _ hm))
    simp [arrayScan, ho, hr]

lemma anchoredResultsKey_false {t : List Char} (h : '\x7b' ∉ t) :
    anchoredResultsKey t = false := by
  match t with
  | [] => rfl
  | [c] => rfl
  | c :: q :: rest =>
    have hc : ¬c = '\x7b' := fun he => h (he ▸ List.mem_cons_self _ _)
    simp [anchoredResultsKey, hc]

lemma anchoredArrObj_false {t : List Char} (h : '\x7b' ∉ t) :
    anchoredArrObj t = false := by
  match t with
  | [] => rfl
  | [c] => rfl
  | c1 :: c2 :: rest =>
    have hc2 : ¬c2 = '\x7b' :=
      fun he => h (he ▸ List.mem_cons_of_mem _ (List.mem_cons_self _ _))
    simp [anchoredArrObj, hc2]

lemma anchoredQuoteEnt_false {t : List Char} (h : '&' ∉ t) :
    anchoredQuoteEnt t = false := by
  match t with
  | [] => rfl
  | c :: rest =>
    have hp : ("&quot;".data).isPrefixOf rest = false := by
      cases hp : ("&quot;".data).isPrefixOf rest with
      | false => rfl
      | true =>
        have : '&' ∈ rest := isPrefixOf_mem hp '&' (by decide)
        exact absurd (List.mem_cons_of_mem _ this) h
    simp [anchoredQuoteEnt, hp]

lemma has_embedded_false (content : String)
    (hbrace : '\x7b' ∉ content.data) (hamp : '&' ∉ content.data)
    (hbs : '\\' ∉ content.data) :
    has_embedded_tool_result content = false := by
  unfold has_embedded_tool_result
  split
  · rfl
  · have htake : ∀ c0 : Char, c0 ∉ content.data →
        c0 ∉ content.data.take 1000 :=
      fun c0 hn hm => hn ((List.take_sublist _ _).subset hm)
    have hdrop : ∀ c0 : Char, c0 ∉ content.data →
        c0 ∉ (content.data.take 1000).dropWhile isWs :=
      fun c0 hn hm =>
        htake c0 hn ((List.dropWhile_sublist _).subset hm)
    dsimp only
    rw [hasSub_absent "&quot;results&quot;".data _ '&' (by decide)
        (htake '&' hamp),
      hasSub_absent "&quot;error&quot;".data _ '&' (by decide)
        (htake '&' hamp),
      hasSub_absent "\\&quot;results\\&quot;".data _ '\\' (by decide)
        (htake '\\' hbs),
      hasSub_absent "\\\"results\\\"".data _ '\\' (by decide)
        (htake '\\' hbs),
      anchoredResultsKey_false (hdrop '\x7b' hbrace),
      anchoredArrObj_false (hdrop '\x7b' hbrace),
      anchoredQuoteEnt_false (hdrop '&' hamp)]
    rfl

lemma extract_no_markers (content : String)
    (h : ∀ c ∈ content.data, c ≠ '\x7b' ∧ c ≠ '&' ∧ c ≠ '\\') :
    (extract_tool_result_info content).has_results = false := by
  have hbrace : '\x7b' ∉ content.data := fun hm => (h _ hm).1 rfl
  have hamp : '&' ∉ content.data := fun hm => (h _ hm).2.1 rfl
  have hbs : '\\' ∉ content.data := fun hm => (h _ hm).2.2 rfl
  by_cases hemp : content.data.isEmpty
  · unfold extract_tool_result_info
    rw [if_pos hemp]
  · unfold extract_tool_result_info
    dsimp only
    rw [if_neg hemp, decode_no_markers hamp hbs, resultsScan_none hbrace]
    dsimp only
    rw [arrayScan_none hbrace]
    dsimp only
    rw [has_embedded_false content hbrace hamp hbs]
    rfl

/-- C9 counterexample: the claim asserts that re-running the extractor on
any compacted digest reports no results, but for this message the sample
row value `[\x7b\x7d]` survives into the digest and re-triggers the raw-array
detection, so the digest is classified as a result payload. -/
theorem c9_counterexample :
    contentText (compact_assistant_with_tool_result exMsgArrTrick).content =
      "[Tool: 1 rows | \x7b\"a\": \"[\x7b\x7d]\"\x7d]" ∧
    (extract_tool_result_info
      (contentText
        (compact_assistant_with_tool_result exMsgArrTrick).content)).has_results =
      true :=
  ⟨rfl, rfl⟩

/-- C9 amended: re-running the extractor on a compacted digest yields
`has_results = false` whenever the digest text contains no brace,
ampersand, or backslash character — which holds for every digest built
without a sample-row rendering and without recovered commentary; the
unrestricted claim fails when the rendered sample row itself contains an
array-of-objects pattern (see the counterexample). -/
theorem c9_amended_digest_not_result (msg : Message)
    (h : ∀ c ∈ (contentText
        (compact_assistant_with_tool_result msg).content).data,
      c ≠ '\x7b' ∧ c ≠ '&' ∧ c ≠ '\\') :
    (extract_tool_result_info
      (contentText
        (compact_assistant_with_tool_result msg).content)).has_results =
      false :=
  extract_no_markers _ h

/-- Witness for C9 at a concrete input: a plain assistant message whose
digest is a character-count note. -/
theorem c9_witness :
    contentText (compact_assistant_with_tool_result exMsgHello).content =
      "[Tool: 5 chars]" ∧
    (∀ c ∈ (contentText
        (compact_assistant_with_tool_result exMsgHello).content).data,
      c ≠ '\x7b' ∧ c ≠ '&' ∧ c ≠ '\\') ∧
    (extract_tool_result_info
      (contentText
        (compact_assistant_with_tool_result exMsgHello).content)).has_results =
      false :=
  ⟨rfl, by decide, c9_amended_digest_not_result exMsgHello (by decide)⟩

/-- C2 counterexample: the claim quantifies over every conversation that
triggers summarization, but when the old segment contains an assistant
message with non-empty multimodal (list) content, the preparation step
passes that list to the regex search and the filter raises an unhandled
`TypeError` — no output message list of the claimed shape is produced. -/
theorem c2_counterexample :
    exValves.token_threshold ≤ count_all_tokens exTC exBodyCrash.messages ∧
    (inletSegments exValves exBodyCrash).1 ≠ [] ∧
    inlet exValves exTC exBodyCrash (SummarizerResult.ok "SUM") =
      .error () := by
  exact ⟨by decide, by decide, rfl⟩

/-- C5 counterexample: on the same kind of multimodal-assistant
conversation both summarizer outcomes raise identically — the exception
equivalence survives — but neither produces an output message list, so
the claimed shape (base prompt, truncation note, recent tail) is not
produced although summarization triggered. -/
theorem c5_counterexample :
    exValves.token_threshold ≤ count_all_tokens exTC exBodyCrashB.messages ∧
    (inletSegments exValves exBodyCrashB).1 ≠ [] ∧
    inlet exValves exTC exBodyCrashB SummarizerResult.err = .error () ∧
    inlet exValves exTC exBodyCrashB (SummarizerResult.ok "") = .error () := by
  exact ⟨by decide, by decide, rfl, rfl⟩

end Scout
